import Mathlib

/-!
Shallow embedding of the masking editor (`MaskingEditor`) from
`src/components/ImageStudio.tsx`: the overlay drawing canvas, the stroke
renderer (`drawLine`), the mask transforms (`clearMask`, `invertMask`), the
exporter (`handleSave`), the `initialMask` seeding and the geometry
computation of `resizeCanvases`.

Rasters are modelled as row-major lists of 8-bit RGBA pixels stored with
premultiplied alpha, as a 2D canvas stores them; the Porter-Duff composite
operations are computed on 0..255 integer channels with flooring division
by 255.  `getImageData` / `putImageData` round-trips through straight alpha
are modelled explicitly (`toStraight`, `toPremult`).
-/

/-- One RGBA pixel as stored by a 2D canvas: premultiplied-alpha channels,
each in 0..255. -/
structure RGBA where
  r : Nat
  g : Nat
  b : Nat
  a : Nat
deriving DecidableEq

/-- The fully transparent pixel held by a freshly created or cleared canvas. -/
def transparent : RGBA := ⟨0, 0, 0, 0⟩

/-- Opaque black, `fillStyle = 'black'`. -/
def opaqueBlack : RGBA := ⟨0, 0, 0, 255⟩

/-- Opaque white, the colour written by the exporter's silhouette and final
loops. -/
def opaqueWhite : RGBA := ⟨255, 255, 255, 255⟩

/-- Opaque red, `fillStyle = 'red'` / `strokeStyle = 'red'`. -/
def red : RGBA := ⟨255, 0, 0, 255⟩

/-- `globalAlpha = 0.5` on 8-bit channels. -/
def ALPHA_HALF : Nat := 128

/-- A canvas raster: its geometry plus row-major pixel data. -/
structure Canvas where
  width : Nat
  height : Nat
  data : List RGBA
deriving DecidableEq

/-- Scaling of a premultiplied source pixel by `globalAlpha` g/255, applied by
the canvas to every drawing operation before compositing. -/
def scaleAlpha (g : Nat) (p : RGBA) : RGBA :=
  ⟨p.r * g / 255, p.g * g / 255, p.b * g / 255, p.a * g / 255⟩

/-- Porter-Duff `source-over` on premultiplied pixels:
out = src + dst·(255 − srcA)/255. -/
def srcOverPx (s d : RGBA) : RGBA :=
  ⟨s.r + d.r * (255 - s.a) / 255, s.g + d.g * (255 - s.a) / 255,
   s.b + d.b * (255 - s.a) / 255, s.a + d.a * (255 - s.a) / 255⟩

/-- Porter-Duff `destination-out`: out = dst·(255 − srcA)/255. -/
def dstOutPx (s d : RGBA) : RGBA :=
  ⟨d.r * (255 - s.a) / 255, d.g * (255 - s.a) / 255,
   d.b * (255 - s.a) / 255, d.a * (255 - s.a) / 255⟩

/-- Porter-Duff `source-in`: out = src·dstA/255. -/
def srcInPx (s d : RGBA) : RGBA :=
  ⟨s.r * d.a / 255, s.g * d.a / 255, s.b * d.a / 255, s.a * d.a / 255⟩

/-- A freshly created canvas of the same geometry as `c`
(`document.createElement('canvas')` sized like `c`): fully transparent. -/
def freshLike (c : Canvas) : Canvas :=
  ⟨c.width, c.height, c.data.map (fun _ => transparent)⟩

/-- `drawImage` of `src` onto the equally sized `dst` under the per-pixel
composite operation `f` (the editor always draws pixel-aligned full-canvas
images). -/
def drawImagePx (f : RGBA → RGBA → RGBA) (src dst : Canvas) : Canvas :=
  ⟨dst.width, dst.height, List.zipWith f src.data dst.data⟩

/-- `fillRect(0, 0, width, height)` with `fillStyle` colour `col` at
`globalAlpha` g under the per-pixel composite operation `op`. -/
def fillRectPx (op : RGBA → RGBA → RGBA) (g : Nat) (col : RGBA) (c : Canvas) :
    Canvas :=
  ⟨c.width, c.height, c.data.map (fun d => op (scaleAlpha g col) d)⟩

/-- `ctx.clearRect(0, 0, canvas.width, canvas.height)`. -/
def clearRect (c : Canvas) : Canvas :=
  ⟨c.width, c.height, c.data.map (fun _ => transparent)⟩

/-- `getImageData`: premultiplied storage read back as straight alpha
(alpha 0 pixels read back as all zero). -/
def toStraight (p : RGBA) : RGBA :=
  if p.a = 0 then ⟨0, 0, 0, 0⟩
  else ⟨p.r * 255 / p.a, p.g * 255 / p.a, p.b * 255 / p.a, p.a⟩

/-- `putImageData`: straight-alpha data premultiplied back into storage. -/
def toPremult (p : RGBA) : RGBA :=
  ⟨p.r * p.a / 255, p.g * p.a / 255, p.b * p.a / 255, p.a⟩

/-- The silhouette loop of `handleSave`: `if (data[i + 3] > 0)` set the pixel
to 255,255,255,255, otherwise leave it untouched. -/
def silhouettePx (p : RGBA) : RGBA := if 0 < p.a then opaqueWhite else p

/-- The final loop of `handleSave`: `if (sourceData[i+3] > 0)` set the final
pixel's colour channels to 255, keeping its (opaque) alpha. -/
def exportCombine (fp sp : RGBA) : RGBA :=
  if 0 < sp.a then { fp with r := 255, g := 255, b := 255 } else fp

/-- The export pipeline of `handleSave`, from the drawing canvas to the final
black/white canvas that is encoded and passed to `onSave`:
black-filled `tempCanvas`; `getImageData` of the drawing canvas; the
silhouette loop and `putImageData` onto `silhouetteCanvas`; the (unused)
`drawImage` of the silhouette onto `tempCanvas`; black-filled `finalCanvas`;
the final loop combining `finalCanvas`'s and `silhouetteCanvas`'s image data;
`putImageData` onto `finalCanvas`. -/
def exportMask (drawingCanvas : Canvas) : Canvas :=
  let tempCanvas := fillRectPx srcOverPx 255 opaqueBlack (freshLike drawingCanvas)
  let imageData := drawingCanvas.data.map toStraight
  let silhouetteCanvas : Canvas :=
    ⟨drawingCanvas.width, drawingCanvas.height,
      (imageData.map silhouettePx).map toPremult⟩
  let _tempAfterDraw := drawImagePx srcOverPx silhouetteCanvas tempCanvas
  let finalCanvas := fillRectPx srcOverPx 255 opaqueBlack (freshLike drawingCanvas)
  let finalData :=
    List.zipWith exportCombine (finalCanvas.data.map toStraight)
      (silhouetteCanvas.data.map toStraight)
  ⟨drawingCanvas.width, drawingCanvas.height, finalData.map toPremult⟩

/-- One rasterized stroke segment, per pixel: `cov i` is the 8-bit source
alpha the stroke rasterizer produces at pixel `i` (brush-shape coverage of
the round-capped segment already scaled by the stroke's `globalAlpha = 0.5`),
0 at every pixel the brush does not touch; the pen colour is `red` and the
composite operation is `destination-out` when erasing, `source-over` when
painting. -/
def strokePx (isErasing : Bool) (cov : Nat) (p : RGBA) : RGBA :=
  if isErasing then dstOutPx (scaleAlpha cov red) p
  else srcOverPx (scaleAlpha cov red) p

/-- Indexed map over the pixel list, used to apply a per-pixel coverage. -/
def mapWithIdx (f : Nat → RGBA → RGBA) : Nat → List RGBA → List RGBA
  | _, [] => []
  | i, p :: ps => f i p :: mapWithIdx f (i + 1) ps

/-- `drawLine`: the null-context guard (`if (!ctx) return;`), then one stroke
segment at the live brush mode, applied to the overlay. -/
def drawLine (isErasing : Bool) (cov : Nat → Nat) :
    Option Canvas → Option Canvas
  | none => none
  | some c =>
    some ⟨c.width, c.height,
      mapWithIdx (fun i p => strokePx isErasing (cov i) p) 0 c.data⟩

/-- `clearMask`: guard (`if (ctx && canvas)`), then
`clearRect(0, 0, canvas.width, canvas.height)`. -/
def clearMask : Option Canvas → Option Canvas
  | none => none
  | some c => some (clearRect c)

/-- `invertMask`: guard (`if (!ctx || !canvas) return;`), then: snapshot the
overlay onto a fresh `tempCanvas`; clear the overlay; `source-over` fill with
red at `globalAlpha = 0.5`; `destination-out` `drawImage` of the snapshot
(still at `globalAlpha = 0.5`, which the code never resets). -/
def invertMask : Option Canvas → Option Canvas
  | none => none
  | some c =>
    let tempCanvas := drawImagePx srcOverPx c (freshLike c)
    let cleared := clearRect c
    let filled := fillRectPx srcOverPx ALPHA_HALF red cleared
    some (drawImagePx (fun s d => dstOutPx (scaleAlpha ALPHA_HALF s) d)
      tempCanvas filled)

/-- `handleSave`: guard on the drawing surface (`if (!drawingCanvas) return;`
and the context guards), then the export pipeline.  The drawing canvas is
only read (`getImageData`); every write goes to a freshly created temporary
canvas, so the editor state component is returned unchanged.  Result: the
(unchanged) drawing surface together with the mask handed to `onSave`
(`none` when nothing is emitted). -/
def handleSave : Option Canvas → Option Canvas × Option Canvas
  | none => (none, none)
  | some drawingCanvas => (some drawingCanvas, some (exportMask drawingCanvas))

/-- The `initialMask` seeding of `resizeCanvases` (the `maskImg.onload`
callback), at equal geometry (the mask image is drawn at canvas size; the
claims compare masks "modulo exact geometry matching"): `tempCanvas`
receives the mask image, is recoloured red by a `source-in` `fillRect`, and
is then drawn onto the freshly resized (hence transparent) overlay with
`source-over` at `globalAlpha = 0.5`. -/
def seedInitialMask (maskImg : Canvas) : Canvas :=
  let tempCanvas := drawImagePx srcOverPx maskImg (freshLike maskImg)
  let recoloured := fillRectPx srcInPx 255 red tempCanvas
  drawImagePx (fun s d => srcOverPx (scaleAlpha ALPHA_HALF s) d)
    recoloured (freshLike maskImg)

/-- The geometry computation of `resizeCanvases` over exact rationals (the
source computes `containerRatio = containerWidth / containerHeight` and
`imgRatio = img.width / img.height` in floating point; the claim is about
the value before the integer truncation of the canvas size assignment):
if the image's aspect is wider than the container's, the canvas takes the
container's width, otherwise the container's height. -/
def computeGeometry (containerWidth containerHeight imgWidth imgHeight : ℚ) :
    ℚ × ℚ :=
  if containerWidth / containerHeight < imgWidth / imgHeight then
    (containerWidth, containerWidth / (imgWidth / imgHeight))
  else
    (containerHeight * (imgWidth / imgHeight), containerHeight)

/-- The integer dimensions `resizeCanvases` assigns to BOTH canvases (the
source loops over `[imageCanvasRef.current, drawingCanvasRef.current]`
assigning the same `canvasWidth` / `canvasHeight`; the unsigned-long canvas
attribute truncates the floating-point value). -/
def resizeDims (containerWidth containerHeight imgWidth imgHeight : ℚ) :
    (ℤ × ℤ) × (ℤ × ℤ) :=
  let g := computeGeometry containerWidth containerHeight imgWidth imgHeight
  ((⌊g.1⌋, ⌊g.2⌋), (⌊g.1⌋, ⌊g.2⌋))

/-- A pointer position in the overlay's local coordinate space. -/
structure Pt where
  x : ℚ
  y : ℚ
deriving DecidableEq

/-- The editor's mutable state: the drawing surface (`none` before geometry
exists), the stroke-continuity refs `isDrawing` / `lastPos`, and the brush
state `isErasing` / `brushSize`. -/
structure EState where
  drawing : Option Canvas
  isDrawing : Bool
  lastPos : Option Pt
  isErasing : Bool
  brushSize : Nat
deriving DecidableEq

/-- `startDrawing`: set `isDrawing`, record `lastPos`, and draw a dot at the
click position (`drawLine(pos.x, pos.y, pos.x, pos.y)`).  `raster` abstracts
the rasterizer: per-pixel source alpha of the segment from the first point
to the second at the given brush size. -/
def startDrawing (raster : Pt → Pt → Nat → Nat → Nat) (pos : Pt)
    (s : EState) : EState :=
  let s1 := { s with isDrawing := true, lastPos := some pos }
  { s1 with drawing := drawLine s1.isErasing (raster pos pos s1.brushSize) s1.drawing }

/-- `draw` (the mouse-move / continueStroke handler):
`if (!isDrawing.current) return;`, otherwise draw the segment from `lastPos`
to the new position (when a last position exists) and record the new
position as `lastPos`. -/
def draw (raster : Pt → Pt → Nat → Nat → Nat) (pos : Pt) (s : EState) :
    EState :=
  if s.isDrawing then
    let s1 :=
      match s.lastPos with
      | some lp =>
        { s with drawing := drawLine s.isErasing (raster lp pos s.brushSize) s.drawing }
      | none => s
    { s1 with lastPos := some pos }
  else s

/-- `stopDrawing`: drop the stroke-continuity state. -/
def stopDrawing (s : EState) : EState :=
  { s with isDrawing := false, lastPos := none }

/-- Canvas storage invariant: premultiplied channels never exceed alpha. -/
def Premultiplied (c : Canvas) : Prop :=
  ∀ p ∈ c.data, p.r ≤ p.a ∧ p.g ≤ p.a ∧ p.b ≤ p.a

instance (c : Canvas) : Decidable (Premultiplied c) :=
  inferInstanceAs (Decidable (∀ p ∈ c.data, p.r ≤ p.a ∧ p.g ≤ p.a ∧ p.b ≤ p.a))

/-! ## Helper lemmas -/

/-- A constant map over a pixel list is a replicate of its length. -/
theorem map_const_replicate (b : RGBA) (l : List RGBA) :
    l.map (fun _ => b) = List.replicate l.length b := by
  induction l with
  | nil => rfl
  | cons p ps ih => simp [List.replicate_succ, ih]

/-- The export pipeline, per pixel: the composed effect of the black fill,
`getImageData`, the silhouette loop, `putImageData`, `getImageData` again and
the final loop is the strict zero-versus-nonzero alpha binarization. -/
theorem export_pixel (p : RGBA) :
    toPremult (exportCombine
        (toStraight (srcOverPx (scaleAlpha 255 opaqueBlack) transparent))
        (toStraight (toPremult (silhouettePx (toStraight p)))))
      = if 0 < p.a then opaqueWhite else opaqueBlack := by
  by_cases h : p.a = 0
  · simp [toStraight, toPremult, silhouettePx, exportCombine, srcOverPx,
      scaleAlpha, transparent, opaqueBlack, opaqueWhite, h]
  · simp [toStraight, toPremult, silhouettePx, exportCombine, srcOverPx,
      scaleAlpha, transparent, opaqueBlack, opaqueWhite, h,
      Nat.pos_of_ne_zero h]

/-- Data-level form of the export pipeline collapse. -/
theorem export_data (F G : RGBA → RGBA) (l : List RGBA)
    (h : ∀ p, toPremult (exportCombine (F p) (G p))
        = if 0 < p.a then opaqueWhite else opaqueBlack) :
    (List.zipWith exportCombine (l.map F) (l.map G)).map toPremult
      = l.map (fun p => if 0 < p.a then opaqueWhite else opaqueBlack) := by
  induction l with
  | nil => rfl
  | cons p ps ih =>
    simp only [List.map_cons, List.zipWith_cons_cons]
    rw [h p, ih]

/-- `exportMask` is the strict alpha binarization of the drawing canvas. -/
theorem exportMask_eq (c : Canvas) :
    exportMask c = ⟨c.width, c.height,
      c.data.map (fun p => if 0 < p.a then opaqueWhite else opaqueBlack)⟩ := by
  simp only [exportMask, fillRectPx, freshLike, Canvas.mk.injEq,
    List.map_map, true_and]
  exact export_data _ _ c.data (fun p => by
    simpa [Function.comp] using export_pixel p)

/-- An erase stroke with zero coverage at a pixel leaves the pixel unchanged. -/
theorem strokePx_erase_zero_cov (p : RGBA) : strokePx true 0 p = p := by
  have h255 : ∀ m : Nat, m * 255 / 255 = m := fun m => by omega
  cases p
  simp [strokePx, dstOutPx, scaleAlpha, red, h255]

/-- An erase stroke leaves a fully transparent pixel fully transparent. -/
theorem strokePx_erase_transparent (cov : Nat) :
    strokePx true cov transparent = transparent := by
  simp [strokePx, dstOutPx, scaleAlpha, red, transparent]

/-- An erase stroke whose touched pixels are all fully transparent leaves the
pixel list unchanged (induction over the list with a shifted start index). -/
theorem erase_mapWithIdx_id (cov : Nat → Nat) :
    ∀ (l : List RGBA) (k : Nat),
      (∀ p ∈ l, p.r ≤ p.a ∧ p.g ≤ p.a ∧ p.b ≤ p.a) →
      (∀ i, i < l.length → 0 < cov (k + i) →
        (l.getD i transparent).a = 0) →
      mapWithIdx (fun i p => strokePx true (cov i) p) k l = l := by
  intro l
  induction l with
  | nil => intro k _ _; rfl
  | cons p ps ih =>
    intro k hwf h
    have hhead : strokePx true (cov k) p = p := by
      rcases Nat.eq_zero_or_pos (cov k) with h0 | hpos
      · rw [h0]; exact strokePx_erase_zero_cov p
      · have ha : p.a = 0 := by
          have := h 0 (by simp) (by simpa using hpos)
          simpa using this
        have hp : p = transparent := by
          rcases hwf p (by simp) with ⟨h1, h2, h3⟩
          rw [ha] at h1 h2 h3
          cases p
          simp_all [transparent]
        rw [hp]; exact strokePx_erase_transparent (cov k)
    show strokePx true (cov k) p :: mapWithIdx _ (k + 1) ps = p :: ps
    rw [hhead]
    congr 1
    apply ih (k + 1)
    · intro q hq; exact hwf q (List.mem_cons_of_mem _ hq)
    · intro i hi hcov
      have := h (i + 1) (by simpa using Nat.succ_lt_succ hi)
        (by rw [show k + (i + 1) = k + 1 + i by omega]; exact hcov)
      simpa using this

/-! ## Claims -/

/-- C1: for every overlay state, the exporter (`handleSave`'s pipeline)
produces an output raster of the same width and height as the overlay
drawing canvas in which every pixel with overlay alpha > 0 is opaque pure
white and every other pixel is opaque pure black — a strict binarization
with no alpha thresholding beyond zero versus non-zero. -/
theorem exportMask_binarizes (c : Canvas) :
    exportMask c = ⟨c.width, c.height,
      c.data.map (fun p => if 0 < p.a then opaqueWhite else opaqueBlack)⟩ :=
  exportMask_eq c

/-- C2: the claim fails on the code.  A full-canvas paint stroke on a 1×1
overlay gives the pixel alpha 128; `invertMask` then leaves that previously
painted pixel at alpha 95 — not fully transparent — because the
`destination-out` punch-out uses the semi-transparent snapshot at
`globalAlpha = 0.5`, so the subsequent export is fully white, not the fully
black raster the claim requires. -/
theorem invertMask_keeps_painted_alpha :
    drawLine false (fun _ => 128) (some ⟨1, 1, [transparent]⟩)
      = some ⟨1, 1, [⟨128, 0, 0, 128⟩]⟩ ∧
    invertMask (some ⟨1, 1, [⟨128, 0, 0, 128⟩]⟩)
      = some ⟨1, 1, [⟨95, 0, 0, 95⟩]⟩ ∧
    exportMask ⟨1, 1, [⟨95, 0, 0, 95⟩]⟩ = ⟨1, 1, [opaqueWhite]⟩ ∧
    (⟨1, 1, [opaqueWhite]⟩ : Canvas) ≠ ⟨1, 1, [opaqueBlack]⟩ := by
  refine ⟨by decide, by decide, by decide, by decide⟩

/-- C3: the claim fails on the code.  On a 1×1 fully transparent overlay the
export is all black, but after applying `invertMask` twice the pixel has
alpha 95 (the first invert selects everything at alpha 128; the second
removes only part of it), so the export after the double invert is all
white: the alpha-presence pattern does not round-trip. -/
theorem double_invert_not_presence_preserving :
    exportMask ⟨1, 1, [transparent]⟩ = ⟨1, 1, [opaqueBlack]⟩ ∧
    invertMask (some ⟨1, 1, [transparent]⟩)
      = some ⟨1, 1, [⟨128, 0, 0, 128⟩]⟩ ∧
    invertMask (some ⟨1, 1, [⟨128, 0, 0, 128⟩]⟩)
      = some ⟨1, 1, [⟨95, 0, 0, 95⟩]⟩ ∧
    exportMask ⟨1, 1, [⟨95, 0, 0, 95⟩]⟩ = ⟨1, 1, [opaqueWhite]⟩ ∧
    (⟨1, 1, [opaqueWhite]⟩ : Canvas) ≠ ⟨1, 1, [opaqueBlack]⟩ := by
  refine ⟨by decide, by decide, by decide, by decide, by decide⟩

/-- C4: the claim fails on the code.  The 1×1 all-black mask is a genuine
exporter output (exporting an untouched overlay), yet seeding the editor
with it paints the whole overlay — the `source-in` recolour keys on the mask
image's opacity, and exported masks are opaque at black pixels too — so the
re-export is all white instead of equal to the supplied mask. -/
theorem seed_initialMask_selects_black_pixels :
    exportMask ⟨1, 1, [transparent]⟩ = ⟨1, 1, [opaqueBlack]⟩ ∧
    seedInitialMask ⟨1, 1, [opaqueBlack]⟩ = ⟨1, 1, [⟨128, 0, 0, 128⟩]⟩ ∧
    exportMask (seedInitialMask ⟨1, 1, [opaqueBlack]⟩)
      = ⟨1, 1, [opaqueWhite]⟩ ∧
    (⟨1, 1, [opaqueWhite]⟩ : Canvas) ≠ ⟨1, 1, [opaqueBlack]⟩ := by
  refine ⟨by decide, by decide, by decide, by decide⟩

/-- C5: when the drawing surface (or its 2D context) is unavailable, every
masking-editor operation is a silent no-op: the stroke renderer, clear and
invert return the state unchanged and `handleSave` emits nothing. -/
theorem ops_noop_without_surface (isErasing : Bool) (cov : Nat → Nat) :
    drawLine isErasing cov none = none ∧
    clearMask none = none ∧
    invertMask none = none ∧
    handleSave none = (none, none) :=
  ⟨rfl, rfl, rfl, rfl⟩

/-- C6: for every prior overlay state, `clearMask` resets the whole overlay
to fully transparent, and exporting the cleared overlay yields an all-black
opaque raster of the same (current) canvas dimensions. -/
theorem clearMask_transparent_then_black_export (c : Canvas) :
    clearMask (some c)
      = some ⟨c.width, c.height, List.replicate c.data.length transparent⟩ ∧
    exportMask ⟨c.width, c.height, List.replicate c.data.length transparent⟩
      = ⟨c.width, c.height, List.replicate c.data.length opaqueBlack⟩ := by
  constructor
  · show some (clearRect c) = _
    simp only [clearRect, map_const_replicate]
  · rw [exportMask_eq]
    simp [List.map_replicate, transparent]

/-- C7: after every run of `resizeCanvases`, the background image canvas and
the overlay drawing canvas are assigned identical width and height; the
computed geometry's width/height ratio equals the source image's
width/height ratio exactly (before the integer truncation of the canvas
size assignment, i.e. "within rounding"), and the canvas fits inside the
container bounds without cropping. -/
theorem resize_geometry_aspect_fit (cw ch iw ih : ℚ)
    (hcw : 0 < cw) (hch : 0 < ch) (hiw : 0 < iw) (hih : 0 < ih) :
    (resizeDims cw ch iw ih).1 = (resizeDims cw ch iw ih).2 ∧
    (computeGeometry cw ch iw ih).1 / (computeGeometry cw ch iw ih).2
      = iw / ih ∧
    (computeGeometry cw ch iw ih).1 ≤ cw ∧
    (computeGeometry cw ch iw ih).2 ≤ ch := by
  have hr : (0 : ℚ) < iw / ih := div_pos hiw hih
  refine ⟨rfl, ?_⟩
  unfold computeGeometry
  split_ifs with h
  · refine ⟨?_, le_refl _, ?_⟩
    · rw [div_div_eq_mul_div, mul_comm]
      exact mul_div_cancel_right₀ _ (ne_of_gt hcw)
    · rw [div_le_iff₀ hr]
      have hlt := (div_lt_iff₀ hch).mp h
      rw [mul_comm]
      linarith
  · have hle : iw / ih ≤ cw / ch := le_of_not_lt h
    refine ⟨?_, ?_, le_refl _⟩
    · rw [mul_comm]
      exact mul_div_cancel_right₀ _ (ne_of_gt hch)
    · have hkey : ch * (cw / ch) = cw := by
        rw [mul_comm]
        exact div_mul_cancel₀ cw (ne_of_gt hch)
      have := mul_le_mul_of_nonneg_left hle (le_of_lt hch)
      linarith

/-- Witness for C7 at a 4×3 container and a 2×1 image. -/
theorem resize_geometry_aspect_fit_witness :
    (0 : ℚ) < 4 ∧ (0 : ℚ) < 3 ∧ (0 : ℚ) < 2 ∧ (0 : ℚ) < 1 ∧
    ((resizeDims 4 3 2 1).1 = (resizeDims 4 3 2 1).2 ∧
     (computeGeometry 4 3 2 1).1 / (computeGeometry 4 3 2 1).2
       = (2 : ℚ) / 1 ∧
     (computeGeometry 4 3 2 1).1 ≤ 4 ∧
     (computeGeometry 4 3 2 1).2 ≤ 3) :=
  ⟨by norm_num, by norm_num, by norm_num, by norm_num,
   resize_geometry_aspect_fit 4 3 2 1 (by norm_num) (by norm_num)
     (by norm_num) (by norm_num)⟩

/-- C8: erasing a stroke over a region where every touched pixel already has
alpha 0 (given the canvas storage invariant that premultiplied channels
never exceed alpha) is a no-op: the overlay is unchanged and the subsequent
export is unchanged. -/
theorem erase_untouched_noop (cov : Nat → Nat) (c : Canvas)
    (hwf : Premultiplied c)
    (h : ∀ i, i < c.data.length → 0 < cov i →
      (c.data.getD i transparent).a = 0) :
    drawLine true cov (some c) = some c ∧
    Option.map exportMask (drawLine true cov (some c))
      = some (exportMask c) := by
  have h1 : drawLine true cov (some c) = some c := by
    show some ⟨c.width, c.height,
      mapWithIdx (fun i p => strokePx true (cov i) p) 0 c.data⟩ = some c
    rw [erase_mapWithIdx_id cov c.data 0 hwf
      (fun i hi hcov => h i hi (by simpa using hcov))]
  exact ⟨h1, by rw [h1]; rfl⟩

/-- Witness for C8: a 2×1 overlay with one painted pixel, erased over the
other (fully transparent) pixel only. -/
theorem erase_untouched_noop_witness :
    Premultiplied ⟨2, 1, [⟨128, 0, 0, 128⟩, transparent]⟩ ∧
    (∀ i, i < (⟨2, 1, [⟨128, 0, 0, 128⟩, transparent]⟩ : Canvas).data.length →
      0 < (if i = 1 then 128 else 0) →
      ((⟨2, 1, [⟨128, 0, 0, 128⟩, transparent]⟩ : Canvas).data.getD i
        transparent).a = 0) ∧
    (drawLine true (fun i => if i = 1 then 128 else 0)
        (some ⟨2, 1, [⟨128, 0, 0, 128⟩, transparent]⟩)
      = some ⟨2, 1, [⟨128, 0, 0, 128⟩, transparent]⟩ ∧
     Option.map exportMask (drawLine true (fun i => if i = 1 then 128 else 0)
        (some ⟨2, 1, [⟨128, 0, 0, 128⟩, transparent]⟩))
      = some (exportMask ⟨2, 1, [⟨128, 0, 0, 128⟩, transparent]⟩)) :=
  ⟨by decide, by decide,
   erase_untouched_noop _ _ (by decide) (by decide)⟩

/-- C9: `handleSave` does not modify the overlay drawing canvas — it only
reads it and writes to freshly created temporary canvases — so the editor's
surface is identical before and after a save, and the emitted mask is the
export of that unchanged overlay. -/
theorem handleSave_preserves_overlay (s : Option Canvas) :
    (handleSave s).1 = s ∧ (handleSave s).2 = Option.map exportMask s := by
  cases s <;> exact ⟨rfl, rfl⟩

/-- C10: calling the `draw` (continueStroke) handler while no stroke is
active — `isDrawing` is false, as before any `startDrawing` or right after
`stopDrawing` — leaves the whole editor state (overlay buffer and `lastPos`
included) unchanged. -/
theorem draw_requires_active_stroke (raster : Pt → Pt → Nat → Nat → Nat)
    (pos : Pt) (s : EState) (h : s.isDrawing = false) :
    draw raster pos s = s ∧
    draw raster pos (stopDrawing s) = stopDrawing s := by
  constructor
  · simp [draw, h]
  · simp [draw, stopDrawing]

/-- Witness for C10 at a concrete idle editor state. -/
theorem draw_requires_active_stroke_witness :
    (⟨none, false, none, false, 40⟩ : EState).isDrawing = false ∧
    (draw (fun _ _ _ _ => 0) ⟨0, 0⟩ ⟨none, false, none, false, 40⟩
       = ⟨none, false, none, false, 40⟩ ∧
     draw (fun _ _ _ _ => 0) ⟨0, 0⟩
         (stopDrawing ⟨none, false, none, false, 40⟩)
       = stopDrawing ⟨none, false, none, false, 40⟩) :=
  ⟨rfl, draw_requires_active_stroke _ _ _ rfl⟩
